import Mathlib

/-!
# Verification of the qpool worker-pool library

A shallow embedding, in Lean 4, of the parts of the qpool Go library that the
specification's claims are about: the circuit breaker (`circuitbreaker.go`),
the keyed result store (`qspace.go`), the rate limiter (`ratelimiter.go`),
the load balancer (`loadbalancer.go`), the worker retry loop (`worker.go`),
and the pool scheduler (`pool.go` / the unnamed pool source).

Conventions of the embedding:
* Go `time.Time` / `time.Duration` values are nanosecond counts, modelled as
  `Nat` (or `Int` where the code can produce negative instants).
* Go `float64` fields that are only ever compared and incremented by whole
  amounts (worker loads, probabilities, uncertainty levels) are modelled as
  `ℚ`, which is exact for every value the code manipulates.
* Go channels are modelled as buffered queues with a `closed` flag held in a
  heap indexed by `Nat` handles; a send on a closed channel is a panic, which
  we surface as `Except.error`.
* Go run-time panics (send on closed channel, index out of range, close of a
  closed channel) are modelled by `Except String`.
* Go `/` on integers truncates toward zero; it is modelled by `Int.tdiv`.
-/

/-! ## Circuit breaker (`circuitbreaker.go`) -/

inductive CircuitState where
  | CircuitClosed
  | CircuitOpen
  | CircuitHalfOpen
deriving DecidableEq

structure CircuitBreaker where
  maxFailures : Nat
  resetTimeout : Nat
  halfOpenMax : Nat
  failureCount : Nat
  state : CircuitState
  openTime : Nat
  halfOpenAttempts : Nat
deriving DecidableEq

/-- `NewCircuitBreaker` from `circuitbreaker.go`: starts closed with all
counters zero. -/
def NewCircuitBreaker (maxFailures resetTimeout halfOpenMax : Nat) : CircuitBreaker :=
  { maxFailures := maxFailures, resetTimeout := resetTimeout, halfOpenMax := halfOpenMax,
    failureCount := 0, state := .CircuitClosed, openTime := 0, halfOpenAttempts := 0 }

/-- `CircuitBreaker.RecordFailure`: increment the failure count; when it
reaches `maxFailures`, transition CLOSED→OPEN or HALF_OPEN→OPEN stamping
`openTime := now`; in OPEN only the count changes. -/
def RecordFailure (now : Nat) (cb : CircuitBreaker) : CircuitBreaker :=
  let cb := { cb with failureCount := cb.failureCount + 1 }
  if cb.maxFailures ≤ cb.failureCount then
    match cb.state with
    | .CircuitHalfOpen => { cb with state := .CircuitOpen, openTime := now }
    | .CircuitClosed => { cb with state := .CircuitOpen, openTime := now }
    | .CircuitOpen => cb
  else cb

/-- `CircuitBreaker.RecordSuccess`: in HALF_OPEN count attempts and close the
circuit (resetting counters) at `halfOpenMax`; in CLOSED reset the failure
count; in OPEN do nothing. -/
def RecordSuccess (cb : CircuitBreaker) : CircuitBreaker :=
  match cb.state with
  | .CircuitHalfOpen =>
      let cb := { cb with halfOpenAttempts := cb.halfOpenAttempts + 1 }
      if cb.halfOpenMax ≤ cb.halfOpenAttempts then
        { cb with state := .CircuitClosed, failureCount := 0, halfOpenAttempts := 0 }
      else cb
  | .CircuitClosed => { cb with failureCount := 0 }
  | .CircuitOpen => cb

/-- `CircuitBreaker.Allow`: CLOSED allows; OPEN allows (moving to HALF_OPEN
with `halfOpenAttempts := 0`) once `now - openTime > resetTimeout`; HALF_OPEN
allows while `halfOpenAttempts < halfOpenMax`.  Returns the updated breaker
together with the verdict. -/
def Allow (now : Nat) (cb : CircuitBreaker) : CircuitBreaker × Bool :=
  match cb.state with
  | .CircuitClosed => (cb, true)
  | .CircuitOpen =>
      if cb.resetTimeout < now - cb.openTime then
        ({ cb with state := .CircuitHalfOpen, halfOpenAttempts := 0 }, true)
      else (cb, false)
  | .CircuitHalfOpen => (cb, decide (cb.halfOpenAttempts < cb.halfOpenMax))

/-- `CircuitBreaker.Renormalize`: attempt the OPEN→HALF_OPEN transition once
`resetTimeout` has elapsed. -/
def Renormalize (now : Nat) (cb : CircuitBreaker) : CircuitBreaker :=
  if cb.state = .CircuitOpen ∧ cb.resetTimeout < now - cb.openTime then
    { cb with state := .CircuitHalfOpen, halfOpenAttempts := 0 }
  else cb

/-- One externally observable operation on a circuit breaker, with the wall
clock reading at the time of the call where the code reads the clock. -/
inductive CBEvent where
  | recFail (now : Nat)
  | recSuccess
  | allowReq (now : Nat)
  | renorm (now : Nat)

def cbStep (cb : CircuitBreaker) (e : CBEvent) : CircuitBreaker :=
  match e with
  | .recFail now => RecordFailure now cb
  | .recSuccess => RecordSuccess cb
  | .allowReq now => (Allow now cb).1
  | .renorm now => Renormalize now cb

/-- The breaker obtained by running a sequence of operations. -/
def cbRun (cb : CircuitBreaker) (es : List CBEvent) : CircuitBreaker :=
  es.foldl cbStep cb

/-- Invariant: whenever the breaker is OPEN or HALF_OPEN, the failure count
has already reached `maxFailures` (nothing below the code's opening branch
ever lowers it before the circuit closes again). -/
def cbInv (cb : CircuitBreaker) : Prop :=
  (cb.state = .CircuitOpen ∨ cb.state = .CircuitHalfOpen) →
    cb.maxFailures ≤ cb.failureCount

lemma cbInv_step (cb : CircuitBreaker) (e : CBEvent) (h : cbInv cb) :
    cbInv (cbStep cb e) := by
  unfold cbInv at h ⊢
  cases e with
  | recFail now =>
      simp only [cbStep, RecordFailure]
      split
      · rename_i hle
        cases hst : cb.state
        · simp [hst, hle]
        · simp [hst, hle]
        · simp [hst, hle]
      · rename_i hlt
        cases hst : cb.state
        · simp [hst]
        · simp [hst]
          exact Nat.le_succ_of_le (h (Or.inl hst))
        · simp [hst]
          exact Nat.le_succ_of_le (h (Or.inr hst))
  | recSuccess =>
      simp only [cbStep, RecordSuccess]
      cases hst : cb.state
      · simp [hst]
      · simp [hst]
        exact h (Or.inl hst)
      · by_cases hho : cb.halfOpenMax ≤ cb.halfOpenAttempts + 1
        · simp [hst, hho]
        · simp [hst, hho]
          exact h (Or.inr hst)
  | allowReq now =>
      simp only [cbStep, Allow]
      cases hst : cb.state
      · simp [hst]
      · by_cases ht : cb.resetTimeout < now - cb.openTime
        · simp [hst, ht]
          exact h (Or.inl hst)
        · simp [hst, ht]
          exact h (Or.inl hst)
      · simp [hst]
        exact h (Or.inr hst)
  | renorm now =>
      simp only [cbStep, Renormalize]
      split
      · rename_i hcond
        simp
        exact h (Or.inl hcond.1)
      · exact h

lemma cbInv_run (cb : CircuitBreaker) (es : List CBEvent) (h : cbInv cb) :
    cbInv (cbRun cb es) := by
  induction es generalizing cb with
  | nil => exact h
  | cons e es ih => exact ih _ (cbInv_step cb e h)

lemma cbInv_new (maxFailures resetTimeout halfOpenMax : Nat) :
    cbInv (NewCircuitBreaker maxFailures resetTimeout halfOpenMax) := by
  intro h
  simp [NewCircuitBreaker] at h

/-- Running `n` failures (all clocked at `t`) from a fresh breaker: the count
is `n`, the state is OPEN as soon as `n` reaches `maxFailures` (with
`openTime = t`), CLOSED before that. -/
lemma recordFailure_iter (maxF resetT hmax t : Nat) (n : Nat) (hn : 1 ≤ n) :
    let cb := (fun cb => RecordFailure t cb)^[n] (NewCircuitBreaker maxF resetT hmax)
    cb.failureCount = n ∧ cb.maxFailures = maxF ∧ cb.resetTimeout = resetT ∧
      cb.halfOpenMax = hmax ∧ cb.halfOpenAttempts = 0 ∧
      (if maxF ≤ n then cb.state = .CircuitOpen ∧ cb.openTime = t
       else cb.state = .CircuitClosed) := by
  induction n with
  | zero => omega
  | succ m ih =>
      rcases Nat.eq_zero_or_pos m with hm | hm
      · subst hm
        simp only [Function.iterate_one]
        by_cases hmf : maxF ≤ 1 <;>
          simp [RecordFailure, NewCircuitBreaker, hmf]
      · have h := ih hm
        rw [Function.iterate_succ_apply']
        set cb := (fun cb => RecordFailure t cb)^[m] (NewCircuitBreaker maxF resetT hmax) with hcb
        obtain ⟨h1, h2, h3, h4, h5, h6⟩ := h
        by_cases hmf : maxF ≤ m
        · simp only [if_pos hmf] at h6
          have : maxF ≤ m + 1 := by omega
          simp [RecordFailure, h1, h2, h3, h4, h5, h6.1, h6.2, this]
        · simp only [if_neg hmf] at h6
          by_cases hmf1 : maxF ≤ m + 1
          · simp [RecordFailure, h1, h2, h3, h4, h5, h6, hmf1]
          · simp [RecordFailure, h1, h2, h3, h4, h5, h6, hmf1]

/-- Running `k` successes from a HALF_OPEN breaker with `a` attempts already
recorded, where `a + k = halfOpenMax` and `k ≥ 1`: the breaker closes with
both counters reset. -/
lemma recordSuccess_iter (k : Nat) (hk : 1 ≤ k) :
    ∀ cb : CircuitBreaker, cb.state = .CircuitHalfOpen →
      cb.halfOpenAttempts + k = cb.halfOpenMax →
      (RecordSuccess^[k] cb).state = .CircuitClosed ∧
        (RecordSuccess^[k] cb).failureCount = 0 ∧
        (RecordSuccess^[k] cb).halfOpenAttempts = 0 := by
  induction k with
  | zero => omega
  | succ m ih =>
      intro cb hst hsum
      rw [Function.iterate_succ_apply]
      rcases Nat.eq_zero_or_pos m with hm | hm
      · subst hm
        have : cb.halfOpenMax ≤ cb.halfOpenAttempts + 1 := by omega
        simp [RecordSuccess, hst, this]
      · have hlt : ¬ (cb.halfOpenMax ≤ cb.halfOpenAttempts + 1) := by omega
        have hstep : RecordSuccess cb =
            { cb with halfOpenAttempts := cb.halfOpenAttempts + 1 } := by
          simp [RecordSuccess, hst, hlt]
        refine ih hm (RecordSuccess cb) ?_ ?_
        · rw [hstep]
          simpa using hst
        · rw [hstep]
          simp
          omega

/-- C1: for a breaker with `maxFailures ≥ 1` (and `halfOpenMax ≥ 1`): after
`maxFailures` consecutive `RecordFailure` calls from CLOSED the state is OPEN
and the next `Allow` (within `resetTimeout` of opening) returns `false`; an
`Allow` strictly more than `resetTimeout` after opening returns `true` and
moves the state to HALF_OPEN; `halfOpenMax` consecutive `RecordSuccess` calls
from a freshly entered HALF_OPEN state close the circuit with both counters
reset; and in any HALF_OPEN state reachable from a fresh breaker a single
`RecordFailure` reopens the circuit and restamps `openTime` to the failure
time. -/
theorem C1_circuit_breaker_state_machine
    (maxF resetT hmax t t1 t2 tf : Nat) (cbh : CircuitBreaker) (es : List CBEvent)
    (hm : 1 ≤ maxF) (hh : 1 ≤ hmax)
    (h1 : t1 - t ≤ resetT) (h2 : resetT < t2 - t)
    (hcb : cbh.state = .CircuitHalfOpen) (ha : cbh.halfOpenAttempts = 0)
    (hcm : cbh.halfOpenMax = hmax)
    (hes : (cbRun (NewCircuitBreaker maxF resetT hmax) es).state = .CircuitHalfOpen) :
    ((fun cb => RecordFailure t cb)^[maxF] (NewCircuitBreaker maxF resetT hmax)).state
        = .CircuitOpen ∧
    (Allow t1 ((fun cb => RecordFailure t cb)^[maxF]
        (NewCircuitBreaker maxF resetT hmax))).2 = false ∧
    (Allow t2 ((fun cb => RecordFailure t cb)^[maxF]
        (NewCircuitBreaker maxF resetT hmax))).2 = true ∧
    (Allow t2 ((fun cb => RecordFailure t cb)^[maxF]
        (NewCircuitBreaker maxF resetT hmax))).1.state = .CircuitHalfOpen ∧
    (RecordSuccess^[hmax] cbh).state = .CircuitClosed ∧
    (RecordSuccess^[hmax] cbh).failureCount = 0 ∧
    (RecordSuccess^[hmax] cbh).halfOpenAttempts = 0 ∧
    (RecordFailure tf (cbRun (NewCircuitBreaker maxF resetT hmax) es)).state
        = .CircuitOpen ∧
    (RecordFailure tf (cbRun (NewCircuitBreaker maxF resetT hmax) es)).openTime = tf := by
  obtain ⟨hc1, hc2, hc3, hc4, hc5, hc6⟩ := recordFailure_iter maxF resetT hmax t maxF hm
  rw [if_pos (le_refl maxF)] at hc6
  set cbO := (fun cb => RecordFailure t cb)^[maxF] (NewCircuitBreaker maxF resetT hmax)
    with hcbO
  have hAllow1 : (Allow t1 cbO).2 = false := by
    have : ¬ (cbO.resetTimeout < t1 - cbO.openTime) := by rw [hc3, hc6.2]; omega
    simp [Allow, hc6.1, this]
  have hAllow2a : (Allow t2 cbO).2 = true ∧ (Allow t2 cbO).1.state = .CircuitHalfOpen := by
    have : cbO.resetTimeout < t2 - cbO.openTime := by rw [hc3, hc6.2]; omega
    simp [Allow, hc6.1, this]
  have hsucc := recordSuccess_iter hmax hh cbh hcb (by omega)
  have hinv := cbInv_run _ es (cbInv_new maxF resetT hmax)
  set cbR := cbRun (NewCircuitBreaker maxF resetT hmax) es with hcbR
  have hge : cbR.maxFailures ≤ cbR.failureCount := hinv (Or.inr hes)
  have hfail : (RecordFailure tf cbR).state = .CircuitOpen ∧
      (RecordFailure tf cbR).openTime = tf := by
    have : cbR.maxFailures ≤ cbR.failureCount + 1 := by omega
    simp [RecordFailure, hes, this]
  exact ⟨hc6.1, hAllow1, hAllow2a.1, hAllow2a.2, hsucc.1, hsucc.2.1, hsucc.2.2,
    hfail.1, hfail.2⟩

/-- Witness for C1 at `maxFailures = 2`, `resetTimeout = 100`,
`halfOpenMax = 1`: opening at time 0, denied at 50, admitted at 200, one
half-open success closes, and a reachable HALF_OPEN state reopens on failure
at time 7. -/
theorem C1_circuit_breaker_state_machine_witness :
    ((fun cb => RecordFailure 0 cb)^[2] (NewCircuitBreaker 2 100 1)).state
        = .CircuitOpen ∧
    (Allow 50 ((fun cb => RecordFailure 0 cb)^[2] (NewCircuitBreaker 2 100 1))).2 = false ∧
    (Allow 200 ((fun cb => RecordFailure 0 cb)^[2] (NewCircuitBreaker 2 100 1))).2 = true ∧
    (RecordFailure 7 (cbRun (NewCircuitBreaker 2 100 1)
        [CBEvent.recFail 0, CBEvent.recFail 0, CBEvent.allowReq 200])).openTime = 7 := by
  have h := C1_circuit_breaker_state_machine 2 100 1 0 50 200 7
    { maxFailures := 2, resetTimeout := 100, halfOpenMax := 1, failureCount := 2,
      state := .CircuitHalfOpen, openTime := 0, halfOpenAttempts := 0 }
    [CBEvent.recFail 0, CBEvent.recFail 0, CBEvent.allowReq 200]
    (by decide) (by decide) (by decide) (by decide) (by decide) (by decide) (by decide)
    (by decide)
  exact ⟨h.1, h.2.1, h.2.2.1, h.2.2.2.2.2.2.2.2⟩

/-! ## Result store (`qspace.go`, `qvalue.go`, `state.go`)

The store keeps quantum values under string ids and a waiter list of
channels per id.  Channels are buffered queues with a `closed` flag, held in
a heap indexed by `Nat` handles; `Chan.cap` is the buffer capacity (`Await`
creates capacity-1 channels).  A Go send on a closed channel is a run-time
panic even under `select`/`default`, and reading `states[0]` of an empty
slice is an index-out-of-range panic; both are surfaced as `Except.error`.
The entanglement / broadcast-group / parent-child bookkeeping of `qspace.go`
is omitted: it lives in maps disjoint from `values` and `waiting` and never
touches them. -/

/-- Go `interface{}` payloads appearing in the claims. -/
inductive GoVal where
  | nilV
  | strV (s : String)
  | errV (s : String)
deriving DecidableEq

/-- `State` from `state.go` (the unused `Amplitude`/`Evidence` fields are
dropped). -/
structure StateP where
  Value : GoVal
  Probability : ℚ
deriving DecidableEq

/-- `QValue` from `qvalue.go` (fields the claims touch). -/
structure QVal where
  Value : GoVal
  Error : Option String
  CreatedAt : Nat
  TTL : Int
  States : List StateP
  Uncertainty : ℚ
deriving DecidableEq

def MaxUncertainty : ℚ := 1

/-- `calculateInitialUncertainty`: zero for at most one state; the source
computes `log2(n)/10` in floating point for `n ≥ 2`, which we model with
`Nat.log2`.  Every comparison against `MaxUncertainty` agrees with the
float version (both are `< 1` exactly when `n < 1024`). -/
def calculateInitialUncertainty (states : List StateP) : ℚ :=
  if states.length ≤ 1 then 0 else (Nat.log2 states.length : ℚ) / 10

/-- `NewQValue` from `qvalue.go`. -/
def NewQValue (now : Nat) (value : GoVal) (states : List StateP) : QVal :=
  { Value := value, Error := none, CreatedAt := now, TTL := 0, States := states,
    Uncertainty := calculateInitialUncertainty states }

/-- A Go channel: bounded buffer plus closed flag. -/
structure Chan where
  buf : List QVal
  cap : Nat
  closed : Bool
deriving DecidableEq

structure QSpaceState where
  values : List (String × QVal)
  waiting : List (String × List Nat)
  stateHistory : List (String × StateP × StateP × Nat × String)
  chans : Nat → Chan
  nextChan : Nat

def emptyQSpace : QSpaceState :=
  { values := [], waiting := [], stateHistory := [],
    chans := fun _ => { buf := [], cap := 0, closed := false }, nextChan := 0 }

/-- Association-list lookup with Go-map replace-on-insert semantics below. -/
def alookup {β : Type} (k : String) : List (String × β) → Option β
  | [] => none
  | (k', v) :: rest => if k = k' then some v else alookup k rest

def ainsert {β : Type} (k : String) (v : β) (l : List (String × β)) : List (String × β) :=
  (k, v) :: l.filter (fun p => p.1 ≠ k)

def aerase {β : Type} (k : String) (l : List (String × β)) : List (String × β) :=
  l.filter (fun p => p.1 ≠ k)

/-- `removeWaitingChannel`: find the first index `j` holding `ch` and remove
it with `append(channels[:j], channels[j+1:]...)`.  That `append` shifts the
tail left inside the *same* backing array, which the caller (`Store`) is
still ranging over; we model the backing array and the live length
explicitly. -/
def shiftDown (arr : Array Nat) (j wlen : Nat) : Array Nat :=
  (List.range (wlen - 1 - j)).foldl (fun a t => a.setD (j + t) (a.getD (j + t + 1) 0)) arr

def removeWaitingChannel (arr : Array Nat) (wlen : Nat) (ch : Nat) : Array Nat × Nat :=
  match (List.range wlen).find? (fun j => arr.getD j 0 = ch) with
  | some j => (shiftDown arr j wlen, wlen - 1)
  | none => (arr, wlen)

/-- The waiter-notification loop of `QSpace.Store`: iterate `i` over the
original length of `waiting[id]`, reading the (mutated) backing array.  A
closed channel panics on the send attempt; a full one takes the `default`
branch and is removed via `removeWaitingChannel`. -/
def notifyGo (qv : QVal) :
    Nat → (Nat → Chan) → Array Nat → Nat → Nat →
      Except String ((Nat → Chan) × Array Nat × Nat)
  | 0, heap, arr, wlen, _ => .ok (heap, arr, wlen)
  | fuel + 1, heap, arr, wlen, i =>
      let ch := arr.getD i 0
      let c := heap ch
      if c.closed then .error "send on closed channel"
      else if c.buf.length < c.cap then
        notifyGo qv fuel (Function.update heap ch { c with buf := c.buf ++ [qv] }) arr wlen (i + 1)
      else
        let rw := removeWaitingChannel arr wlen ch
        notifyGo qv fuel heap rw.1 rw.2 (i + 1)

/-- `QSpace.recordTransition`: append to the state history. -/
def recordTransition (valueID : String) (fromS toS : StateP) (now : Nat) (cause : String)
    (st : QSpaceState) : QSpaceState :=
  { st with stateHistory := st.stateHistory ++ [(valueID, fromS, toS, now, cause)] }

namespace QSpace

/-- The tail of `QSpace.Store` after the transition has been recorded:
replace the entry, then run the notification loop over `waiting[id]` and
delete that waiter list. -/
def storeCore (qv : QVal) (id : String) (st : QSpaceState) : Except String QSpaceState :=
  let st := { st with values := ainsert id qv st.values }
  match alookup id st.waiting with
  | some channels =>
      match notifyGo qv channels.length st.chans (Array.mk channels) channels.length 0 with
      | .ok res => .ok { st with chans := res.1, waiting := aerase id st.waiting }
      | .error e => .error e
  | none => .ok st

/-- `QSpace.Store`: build the new `QValue`, record a state transition when an
entry already exists (reading `oldQV.States[0]` and `states[0]`, a panic on
an empty slice), replace the entry, then notify and clear the waiter list. -/
def Store (now : Nat) (id : String) (value : GoVal) (states : List StateP) (ttl : Int)
    (st : QSpaceState) : Except String QSpaceState :=
  let qv := { NewQValue now value states with TTL := ttl }
  match alookup id st.values with
  | some oldQV =>
      match oldQV.States[0]?, states[0]? with
      | some fromS, some toS =>
          storeCore qv id (recordTransition id fromS toS now "store" st)
      | _, _ => .error "index out of range"
  | none => storeCore qv id st

/-- `QSpace.Await`: allocate a fresh capacity-1 channel; if the value exists
and its uncertainty is below `MaxUncertainty`, deliver it at once and close
the channel; otherwise register the channel in `waiting[id]`. -/
def Await (id : String) (st : QSpaceState) : QSpaceState × Nat :=
  let h := st.nextChan
  let st' := { st with
    chans := Function.update st.chans h ({ buf := [], cap := 1, closed := false } : Chan),
    nextChan := h + 1 }
  match alookup id st'.values with
  | some qv =>
      if qv.Uncertainty < MaxUncertainty then
        let delivered : Chan := { buf := [qv], cap := 1, closed := true }
        ({ st' with chans := Function.update st'.chans h delivered }, h)
      else
        ({ st' with waiting := ainsert id ((alookup id st'.waiting).getD [] ++ [h]) st'.waiting }, h)
  | none =>
      ({ st' with waiting := ainsert id ((alookup id st'.waiting).getD [] ++ [h]) st'.waiting }, h)

/-- `QSpace.Exists`: a raw map-membership probe; no expiry check. -/
def Exists (id : String) (st : QSpaceState) : Bool :=
  (alookup id st.values).isSome

/-- `QSpace.cleanup`: evict every value with `TTL > 0 ∧ now - CreatedAt > TTL`
(the entanglement / relationship / group bookkeeping on eviction is omitted,
as above). -/
def cleanup (now : Nat) (st : QSpaceState) : QSpaceState :=
  { st with values := st.values.filter (fun p =>
      !(decide (0 < p.2.TTL) && decide (p.2.TTL < (now : Int) - (p.2.CreatedAt : Int)))) }

end QSpace

/-- `runCleanup` fires `QSpace.cleanup` on a ticker every `cleanupInterval`
(1 minute by default): by wall-clock time `now`, exactly the sweeps at times
`interval, 2*interval, …` up to `now` have run. -/
def runCleanupTicks (interval now : Nat) (st : QSpaceState) : QSpaceState :=
  ((List.range (now / interval)).map (fun k => (k + 1) * interval)).foldl
    (fun s t => QSpace.cleanup t s) st

/-! ### Lookup lemmas for the store -/

/-- Whether a stored value counts as expired by the sweep at time `t`. -/
def expiredAt (t : Nat) (qv : QVal) : Bool :=
  decide (0 < qv.TTL) && decide (qv.TTL < (t : Int) - (qv.CreatedAt : Int))

lemma alookup_none_of_not_mem {β : Type} (k : String) (l : List (String × β))
    (h : k ∉ l.map Prod.fst) : alookup k l = none := by
  induction l with
  | nil => rfl
  | cons p rest ih =>
      simp only [List.map_cons, List.mem_cons] at h
      push_neg at h
      simp [alookup, h.1, ih h.2]

lemma alookup_filter_none {β : Type} (k : String) (p : String × β → Bool)
    (l : List (String × β)) (h : alookup k l = none) :
    alookup k (l.filter p) = none := by
  induction l with
  | nil => rfl
  | cons q rest ih =>
      simp only [alookup] at h
      by_cases hk : k = q.1
      · simp [hk] at h
      · rcases hp : p q with _ | _
        · simp [List.filter_cons, hp]
          exact ih (by simpa [hk] using h)
        · simp [List.filter_cons, hp, alookup, hk]
          exact ih (by simpa [hk] using h)

lemma alookup_filter_of_nodup {β : Type} (k : String) (p : String × β → Bool)
    (l : List (String × β)) (hnd : (l.map Prod.fst).Nodup) (v : β)
    (h : alookup k l = some v) :
    alookup k (l.filter p) = if p (k, v) then some v else none := by
  induction l with
  | nil => simp [alookup] at h
  | cons q rest ih =>
      obtain ⟨q1, q2⟩ := q
      simp only [List.map_cons, List.nodup_cons] at hnd
      by_cases hk : k = q1
      · subst hk
        simp only [alookup, if_true, eq_self_iff_true, Option.some.injEq] at h
        subst h
        have hrest : alookup k rest = none :=
          alookup_none_of_not_mem k rest (by simpa using hnd.1)
        rcases hp : p (k, q2) with _ | _
        · simp [List.filter_cons, hp, alookup_filter_none k p rest hrest]
        · simp [List.filter_cons, hp, alookup]
      · simp only [alookup, if_neg hk] at h
        rcases hp : p (q1, q2) with _ | _
        · simpa [List.filter_cons, hp] using ih hnd.2 h
        · simpa [List.filter_cons, hp, alookup, hk] using ih hnd.2 h

lemma cleanup_values (t : Nat) (st : QSpaceState) :
    (QSpace.cleanup t st).values = st.values.filter (fun p => !(expiredAt t p.2)) := by
  simp [QSpace.cleanup, expiredAt]

lemma cleanup_nodup (t : Nat) (st : QSpaceState)
    (h : (st.values.map Prod.fst).Nodup) :
    ((QSpace.cleanup t st).values.map Prod.fst).Nodup := by
  rw [cleanup_values]
  exact h.sublist (List.Sublist.map Prod.fst (List.filter_sublist _))

lemma cleanup_removes (t : Nat) (st : QSpaceState) (id : String) (qv : QVal)
    (hnd : (st.values.map Prod.fst).Nodup)
    (hv : alookup id st.values = some qv) (hexp : expiredAt t qv = true) :
    alookup id (QSpace.cleanup t st).values = none := by
  rw [cleanup_values, alookup_filter_of_nodup id _ st.values hnd qv hv]
  simp [hexp]

lemma cleanup_keeps (t : Nat) (st : QSpaceState) (id : String) (qv : QVal)
    (hnd : (st.values.map Prod.fst).Nodup)
    (hv : alookup id st.values = some qv) (hexp : expiredAt t qv = false) :
    alookup id (QSpace.cleanup t st).values = some qv := by
  rw [cleanup_values, alookup_filter_of_nodup id _ st.values hnd qv hv]
  simp [hexp]

lemma cleanup_preserves_none (t : Nat) (st : QSpaceState) (id : String)
    (h : alookup id st.values = none) :
    alookup id (QSpace.cleanup t st).values = none := by
  rw [cleanup_values]
  exact alookup_filter_none id _ st.values h

lemma foldl_cleanup_none (ts : List Nat) (id : String) :
    ∀ st : QSpaceState, alookup id st.values = none →
      alookup id (ts.foldl (fun s t => QSpace.cleanup t s) st).values = none := by
  induction ts with
  | nil => intro st h; exact h
  | cons t rest ih =>
      intro st h
      exact ih (QSpace.cleanup t st) (cleanup_preserves_none t st id h)

lemma foldl_cleanup_removes (ts : List Nat) (id : String) (qv : QVal) :
    ∀ st : QSpaceState, (st.values.map Prod.fst).Nodup →
      alookup id st.values = some qv → (∃ t ∈ ts, expiredAt t qv = true) →
      alookup id (ts.foldl (fun s t => QSpace.cleanup t s) st).values = none := by
  induction ts with
  | nil => rintro st _ _ ⟨t, ht, _⟩; simp at ht
  | cons t rest ih =>
      rintro st hnd hv ⟨u, hu, hexp⟩
      rcases List.mem_cons.mp hu with hut | hur
      · subst hut
        exact foldl_cleanup_none rest id _ (cleanup_removes u st id qv hnd hv hexp)
      · rcases he : expiredAt t qv with _ | _
        · exact ih (QSpace.cleanup t st) (cleanup_nodup t st hnd)
            (cleanup_keeps t st id qv hnd hv he) ⟨u, hur, hexp⟩
        · exact foldl_cleanup_none rest id _ (cleanup_removes t st id qv hnd hv he)

lemma foldl_cleanup_keeps (ts : List Nat) (id : String) (qv : QVal) :
    ∀ st : QSpaceState, (st.values.map Prod.fst).Nodup →
      alookup id st.values = some qv → (∀ t ∈ ts, expiredAt t qv = false) →
      alookup id (ts.foldl (fun s t => QSpace.cleanup t s) st).values = some qv := by
  induction ts with
  | nil => intro st _ hv _; exact hv
  | cons t rest ih =>
      intro st hnd hv hall
      exact ih (QSpace.cleanup t st) (cleanup_nodup t st hnd)
        (cleanup_keeps t st id qv hnd hv (hall t (List.mem_cons_self t rest)))
        (fun u hu => hall u (List.mem_cons_of_mem t hu))

lemma expiredAt_mono (qv : QVal) (t u : Nat) (htu : t ≤ u)
    (h : expiredAt u qv = false) : expiredAt t qv = false := by
  simp only [expiredAt, Bool.and_eq_false_iff, decide_eq_false_iff_not] at h ⊢
  rcases h with h | h
  · exact Or.inl h
  · right
    intro hc
    exact h (lt_of_lt_of_le hc (by
      have : (t : Int) ≤ (u : Int) := by exact_mod_cast htu
      omega))


/-- C6 (counterexample): storing under id `"t"` with TTL 100 at time 0 and
probing at time 300 — past expiry, since `300 - 0 > 100` — still finds the
entry: `Exists` does not check expiry and the first cleanup sweep (interval
60000) has not run yet, contradicting the claim that an expired entry is
indistinguishable from a never-stored one and that `exists` is `false`. -/
theorem C6_ttl_expiry_counterexample :
    (100 : Int) < (300 : Int) - (0 : Int) ∧
    (QSpace.Store 0 "t" (GoVal.strV "v") [{ Value := GoVal.strV "v", Probability := 1 }]
        100 emptyQSpace).map (fun st => QSpace.Exists "t" (runCleanupTicks 60000 300 st))
      = .ok true := by
  exact ⟨by decide, rfl⟩

/-- C6 (amended): an entry expired per `TTL > 0 ∧ now − createdAt > TTL`
becomes invisible to `Exists` only once a cleanup sweep runs at a time at
which it is expired (sweeps fire at multiples of the cleanup interval);
until such a sweep `Exists` still reports it, and an entry not yet expired
at `now` is still reported at `now`. -/
theorem C6_ttl_cleanup_amended
    (st : QSpaceState) (id : String) (qv : QVal) (interval now k : Nat)
    (hiv : 1 ≤ interval)
    (hnd : (st.values.map Prod.fst).Nodup)
    (hv : alookup id st.values = some qv) :
    ((k + 1) * interval ≤ now → expiredAt ((k + 1) * interval) qv = true →
      QSpace.Exists id (runCleanupTicks interval now st) = false) ∧
    (expiredAt now qv = false →
      QSpace.Exists id (runCleanupTicks interval now st) = true) := by
  constructor
  · intro hk hexp
    have hmem : (k + 1) * interval ∈
        (List.range (now / interval)).map (fun j => (j + 1) * interval) := by
      refine List.mem_map.mpr ⟨k, ?_, rfl⟩
      refine List.mem_range.mpr ?_
      have : k + 1 ≤ now / interval := (Nat.le_div_iff_mul_le hiv).mpr hk
      omega
    have hnone := foldl_cleanup_removes _ id qv st hnd hv ⟨(k + 1) * interval, hmem, hexp⟩
    simp [QSpace.Exists, runCleanupTicks, hnone]
  · intro hexp
    have hall : ∀ t ∈ (List.range (now / interval)).map (fun j => (j + 1) * interval),
        expiredAt t qv = false := by
      intro t ht
      rcases List.mem_map.mp ht with ⟨j, hj, rfl⟩
      have hj' : j + 1 ≤ now / interval := List.mem_range.mp hj
      have hle : (j + 1) * interval ≤ now :=
        le_trans (Nat.mul_le_mul_right interval hj') (Nat.div_mul_le_self now interval)
      exact expiredAt_mono qv _ now hle hexp
    have hsome := foldl_cleanup_keeps _ id qv st hnd hv hall
    simp [QSpace.Exists, runCleanupTicks, hsome]

/-- A stored value with TTL 100 created at time 0, and the states holding it. -/
def qvT : QVal :=
  { Value := GoVal.strV "v", Error := none, CreatedAt := 0, TTL := 100,
    States := [], Uncertainty := 0 }

def stT : QSpaceState := { emptyQSpace with values := [("t", qvT)] }

def stU : QSpaceState := { emptyQSpace with values := [("u", qvT)] }

/-- Witness for the amended C6: the TTL-100 entry created at 0 is gone by the
first sweep at 60000 (where it is expired), and still visible at 50 (where it
is not yet expired). -/
theorem C6_ttl_cleanup_amended_witness :
    QSpace.Exists "t" (runCleanupTicks 60000 60000 stT) = false ∧
    QSpace.Exists "u" (runCleanupTicks 60000 50 stU) = true := by
  constructor
  · exact (C6_ttl_cleanup_amended stT "t" qvT 60000 60000 0 (by decide) (by decide) rfl).1
      (by decide) (by decide)
  · exact (C6_ttl_cleanup_amended stU "u" qvT 60000 50 0 (by decide) (by decide) rfl).2
      (by decide)

/-- C10: `Store` with an empty `states` slice panics with an index-out-of-
range (reading `states[0]` in the `recordTransition` call) exactly when an
entry for the id already exists — the entry is not replaced, since the panic
precedes the map update; with no prior entry (and no registered waiters) the
same call succeeds and installs the value. -/
theorem C10_store_empty_states
    (st st2 : QSpaceState) (id id2 : String) (v v2 : GoVal) (ttl ttl2 : Int)
    (now now2 : Nat) (old : QVal)
    (hv : alookup id st.values = some old)
    (hv2 : alookup id2 st2.values = none) (hw2 : alookup id2 st2.waiting = none) :
    QSpace.Store now id v [] ttl st = .error "index out of range" ∧
    QSpace.Store now2 id2 v2 [] ttl2 st2 =
      .ok { st2 with
              values := ainsert id2 ({ NewQValue now2 v2 [] with TTL := ttl2 } : QVal)
                st2.values } := by
  constructor
  · unfold QSpace.Store
    rw [hv]
    rcases hS : old.States with _ | ⟨s, rest⟩ <;> simp [hS]
  · unfold QSpace.Store QSpace.storeCore
    rw [hv2]
    simp [hw2]

/-- The pre-existing entry used by the C10 witness. -/
def qvA : QVal :=
  { Value := GoVal.nilV, Error := none, CreatedAt := 0, TTL := 0,
    States := [{ Value := GoVal.nilV, Probability := 1 }], Uncertainty := 0 }

def stA : QSpaceState := { emptyQSpace with values := [("a", qvA)] }

/-- Witness for C10: a one-entry store panics on an empty-states `Store` for
that id; an empty store accepts the same call. -/
theorem C10_store_empty_states_witness :
    QSpace.Store 1 "a" GoVal.nilV [] 5 stA = .error "index out of range" ∧
    QSpace.Store 1 "b" GoVal.nilV [] 5 emptyQSpace =
      .ok { emptyQSpace with
              values := ainsert "b" ({ NewQValue 1 GoVal.nilV [] with TTL := 5 } : QVal)
                emptyQSpace.values } :=
  C10_store_empty_states stA emptyQSpace "a" "b" GoVal.nilV GoVal.nilV 5 5 1 1 qvA
    rfl rfl rfl

/-! ### C2: waiter delivery in `Store` -/

/-- Filler value occupying the full waiter channel in the C2 scenario. -/
def qvFiller : QVal := NewQValue 0 GoVal.nilV []

/-- Channel heap: handle 0 full (buffer 1 of capacity 1, open), handles 1 and
2 empty open capacity-1 channels, as `Await` creates them. -/
def heapC2 : Nat → Chan :=
  fun n => if n = 0 then { buf := [qvFiller], cap := 1, closed := false }
    else { buf := [], cap := 1, closed := false }

/-- Store state with three waiters registered for `"k"`: handle 0 (full),
then handles 1 and 2 (open, empty). -/
def stC2 : QSpaceState :=
  { values := [], waiting := [("k", [0, 1, 2])], stateHistory := [],
    chans := heapC2, nextChan := 3 }

/-- Store state with a single waiter for `"k"` whose channel has been closed
(callers hold the channel returned by `Await` and may close it). -/
def stC2closed : QSpaceState :=
  { values := [], waiting := [("k", [0])], stateHistory := [],
    chans := fun _ => { buf := [], cap := 1, closed := true }, nextChan := 1 }

/-- C2 (evaluation at the failing inputs): `Await` registers a fresh open,
empty, capacity-1 waiter channel; yet (i) when the waiter list holds a full
channel followed by two open empty waiters, `Store` delivers to the third
waiter only, silently skips the second (the `removeWaitingChannel` call
mutates the slice the loop is ranging over), and still clears the whole
waiter list, leaving the skipped waiter pending forever; and (ii) when a
registered waiter channel has been closed, `Store` panics on the send
attempt (a Go `select` send case on a closed channel fires and panics)
instead of dropping it silently. -/
theorem C2_store_waiter_delivery_failing :
    ((QSpace.Await "k" emptyQSpace).1.chans (QSpace.Await "k" emptyQSpace).2).closed = false ∧
    ((QSpace.Await "k" emptyQSpace).1.chans (QSpace.Await "k" emptyQSpace).2).buf = [] ∧
    alookup "k" (QSpace.Await "k" emptyQSpace).1.waiting = some [0] ∧
    (QSpace.Store 5 "k" (GoVal.strV "x") [{ Value := GoVal.strV "x", Probability := 1 }]
        0 stC2).map
        (fun s => ((s.chans 1).buf.length, (s.chans 2).buf.length, alookup "k" s.waiting))
      = .ok (0, 1, none) ∧
    QSpace.Store 5 "k" (GoVal.strV "x") [{ Value := GoVal.strV "x", Probability := 1 }]
        0 stC2closed
      = .error "send on closed channel" :=
  ⟨rfl, rfl, rfl, rfl, rfl⟩

/-! ## Worker retry loop (`worker.go`) and `ExponentialBackoff` (`part_022`) -/

/-- `ExponentialBackoff.NextDelay` computes
`Initial * time.Duration(math.Pow(2, float64(attempt-1)))`.  For
`attempt = 0` the float value `2^(-1) = 0.5` truncates to duration 0, making
the whole delay 0; for `attempt ≥ 1` the power is exact. -/
def NextDelay (initial : Nat) (attempt : Nat) : Nat :=
  if attempt = 0 then 0 else initial * 2 ^ (attempt - 1)

/-- What `Worker.executeWithRetry` produces: the final result/error pair, how
many times the callable ran, and the sleeps performed in order. -/
structure RetryResult where
  result : Option GoVal
  error : Option String
  invocations : Nat
  delays : List Nat
deriving DecidableEq

/-- The loop of `Worker.executeWithRetry`: `fn i` is the outcome of the
`i`-th invocation of the job's callable (0-based); the loop runs
`attempt = 0 … maxAttempts`, returns on the first success, and sleeps
`Strategy.NextDelay(attempt)` — with the 0-based loop index — before each
retry. -/
def retryLoop (maxAttempts initial : Nat) (fn : Nat → Except String GoVal)
    (attempt : Nat) (delays : List Nat) : RetryResult :=
  match fn attempt with
  | .ok v => { result := some v, error := none, invocations := attempt + 1, delays := delays }
  | .error e =>
      if _h : attempt < maxAttempts then
        retryLoop maxAttempts initial fn (attempt + 1) (delays ++ [NextDelay initial attempt])
      else
        { result := none, error := some e, invocations := attempt + 1, delays := delays }
termination_by maxAttempts - attempt

def executeWithRetry (maxAttempts initial : Nat) (fn : Nat → Except String GoVal) :
    RetryResult :=
  retryLoop maxAttempts initial fn 0 []

/-- C3 (evaluation at the failing input): with `withRetry(3, exponential(d))`
and a callable failing on its first two invocations, the worker makes
exactly 3 invocations and resolves to the success value with no error — but
the sleeps are `NextDelay(0) = 0` before the second invocation and
`NextDelay(1) = d` before the third (total backoff `d`), not the claimed `d`
and `2d` (total `3d`): `executeWithRetry` passes the 0-based loop index to a
strategy whose formula `initial × 2^(attempt−1)` is 1-based (as the
`NextDelay(attempt+1)` call in `checkSingleDependency` confirms). -/
theorem C3_retry_backoff_evaluation (d : Nat) :
    executeWithRetry 3 d
        (fun i => if i < 2 then .error "failure" else .ok (GoVal.strV "success after retry"))
      = { result := some (GoVal.strV "success after retry"), error := none,
          invocations := 3, delays := [0, d] } := by
  unfold executeWithRetry
  rw [retryLoop, retryLoop, retryLoop]
  norm_num [NextDelay]

/-! ## Pool shutdown (`Q.Close`, pool source / `worker.go`) -/

structure GoChan where
  closed : Bool
deriving DecidableEq

/-- Go `close(ch)`: panics when the channel is already closed. -/
def closeChan (c : GoChan) : Except String GoChan :=
  if c.closed then .error "close of closed channel" else .ok { closed := true }

structure PoolCloseState where
  cancelled : Bool
  workerJobs : List GoChan
  quit : GoChan
  jobs : GoChan
  workers : GoChan
deriving DecidableEq

/-- `Q.Close`: cancel the context and wait for the goroutines (pure
bookkeeping here), close every worker's inbound jobs channel and nil the
worker list, then unconditionally close `quit`, `jobs` and `workers` — there
is no already-closed guard and no `sync.Once`. -/
def QClose (q : PoolCloseState) : Except String PoolCloseState :=
  match q.workerJobs.mapM closeChan with
  | .error e => .error e
  | .ok _ =>
      match closeChan q.quit with
      | .error e => .error e
      | .ok quitC =>
          match closeChan q.jobs with
          | .error e => .error e
          | .ok jobsC =>
              match closeChan q.workers with
              | .error e => .error e
              | .ok workersC =>
                  .ok { cancelled := true, workerJobs := [], quit := quitC,
                        jobs := jobsC, workers := workersC }

lemma closeChan_ok (c c' : GoChan) (h : closeChan c = .ok c') : c' = { closed := true } := by
  unfold closeChan at h
  split at h
  · cases h
  · cases h
    rfl

/-- C7: `Q.Close` is not idempotent: after any successful `Close`, the `quit`
/ `jobs` / `workers` channels are closed, so a second `Close` panics with
"close of closed channel" (at `close(q.quit)`) instead of being a no-op. -/
theorem C7_close_second_call_panics (q q' : PoolCloseState) (h : QClose q = .ok q') :
    QClose q' = .error "close of closed channel" := by
  unfold QClose at h
  split at h
  · cases h
  · split at h
    · cases h
    · rename_i quitC hquit
      split at h
      · cases h
      · split at h
        · cases h
        · cases h
          have hq : quitC = { closed := true } := closeChan_ok _ _ hquit
          subst hq
          rfl

/-- All-open pool channel state before the first `Close`. -/
def qOpen : PoolCloseState :=
  { cancelled := false, workerJobs := [{ closed := false }],
    quit := { closed := false }, jobs := { closed := false },
    workers := { closed := false } }

/-- The state a successful `Close` leaves behind. -/
def qClosed : PoolCloseState :=
  { cancelled := true, workerJobs := [],
    quit := { closed := true }, jobs := { closed := true },
    workers := { closed := true } }

/-- Witness for C7: the second `Close` on a freshly closed pool panics. -/
theorem C7_close_second_call_panics_witness :
    QClose qClosed = .error "close of closed channel" :=
  C7_close_second_call_panics qOpen qClosed rfl

/-! ## Load balancer (`loadbalancer.go`) -/

/-- Load-balancer state: per-worker load (`float64`, exact in `ℚ` since it
only ever moves by ±1 with a floor at 0), moving-average latency
(`time.Duration`), capacity (`int`), and the active worker count.  Total
functions model the Go maps (absent keys read as zero). -/
structure LoadBalancer where
  workerLoads : Nat → ℚ
  workerLatency : Nat → Nat
  workerCapacity : Nat → Int
  activeWorkers : Nat

/-- One iteration of the `SelectWorker` scan at worker `i` given the current
`selectedWorker` (`none` models `-1`): skip workers at or above capacity;
otherwise take the first, any strictly lighter one, and on a load tie switch
when the incumbent has zero latency or the challenger has a smaller non-zero
latency. -/
def selectStep (lb : LoadBalancer) (sel : Option Nat) (i : Nat) : Option Nat :=
  if (lb.workerCapacity i : ℚ) ≤ lb.workerLoads i then sel
  else
    match sel with
    | none => some i
    | some s =>
        if lb.workerLoads i < lb.workerLoads s then some i
        else if lb.workerLoads i = lb.workerLoads s then
          if lb.workerLatency s = 0 ∨
              (0 < lb.workerLatency i ∧ lb.workerLatency i < lb.workerLatency s) then
            some i
          else some s
        else some s

/-- `LoadBalancer.SelectWorker`: scan workers `0 … activeWorkers-1`; `none`
models the `ErrNoAvailableWorkers` return. -/
def SelectWorker (lb : LoadBalancer) : Option Nat :=
  (List.range lb.activeWorkers).foldl (selectStep lb) none

/-- A worker the scan may select: strictly below its capacity. -/
def lbEligible (lb : LoadBalancer) (i : Nat) : Prop :=
  lb.workerLoads i < (lb.workerCapacity i : ℚ)

/-- Invariant of the scan over the processed prefix `l`: with no selection
every processed worker is at capacity; with selection `s`, `s` is an
eligible processed worker of minimal load, and among processed eligible
workers tied with `s`: if `s` has zero latency they all do, and if `s` has
non-zero latency it is minimal among the non-zero ones. -/
def selInv (lb : LoadBalancer) (l : List Nat) : Option Nat → Prop
  | none => ∀ i ∈ l, ¬ lbEligible lb i
  | some s =>
      s ∈ l ∧ lbEligible lb s ∧
      (∀ i ∈ l, lbEligible lb i → lb.workerLoads s ≤ lb.workerLoads i) ∧
      (lb.workerLatency s = 0 → ∀ i ∈ l, lbEligible lb i →
        lb.workerLoads i = lb.workerLoads s → lb.workerLatency i = 0) ∧
      (lb.workerLatency s ≠ 0 → ∀ i ∈ l, lbEligible lb i →
        lb.workerLoads i = lb.workerLoads s → lb.workerLatency i ≠ 0 →
        lb.workerLatency s ≤ lb.workerLatency i)

lemma selectStep_cap (lb : LoadBalancer) (sel : Option Nat) (j : Nat)
    (hcap : (lb.workerCapacity j : ℚ) ≤ lb.workerLoads j) :
    selectStep lb sel j = sel := by
  simp [selectStep, hcap]

lemma selectStep_none (lb : LoadBalancer) (j : Nat)
    (hcap : ¬ (lb.workerCapacity j : ℚ) ≤ lb.workerLoads j) :
    selectStep lb none j = some j := by
  simp [selectStep, hcap]

lemma selectStep_some (lb : LoadBalancer) (j s : Nat)
    (hcap : ¬ (lb.workerCapacity j : ℚ) ≤ lb.workerLoads j) :
    selectStep lb (some s) j =
      if lb.workerLoads j < lb.workerLoads s then some j
      else if lb.workerLoads j = lb.workerLoads s then
        if lb.workerLatency s = 0 ∨
            (0 < lb.workerLatency j ∧ lb.workerLatency j < lb.workerLatency s) then
          some j
        else some s
      else some s := by
  simp [selectStep, hcap]

lemma selInv_step (lb : LoadBalancer) (l : List Nat) (sel : Option Nat) (j : Nat)
    (h : selInv lb l sel) : selInv lb (l ++ [j]) (selectStep lb sel j) := by
  by_cases hcap : (lb.workerCapacity j : ℚ) ≤ lb.workerLoads j
  · have hnel : ¬ lbEligible lb j := by
      unfold lbEligible
      exact not_lt.mpr hcap
    rw [selectStep_cap lb sel j hcap]
    cases sel with
    | none =>
        intro i hi
        rcases List.mem_append.mp hi with hi | hi
        · exact h i hi
        · rw [List.mem_singleton.mp hi]
          exact hnel
    | some s =>
        obtain ⟨hs1, hs2, hs3, hs4, hs5⟩ := h
        refine ⟨List.mem_append_left _ hs1, hs2, ?_, ?_, ?_⟩
        · intro i hi he
          rcases List.mem_append.mp hi with hi | hi
          · exact hs3 i hi he
          · rw [List.mem_singleton.mp hi] at he
            exact absurd he hnel
        · intro h0 i hi he heq
          rcases List.mem_append.mp hi with hi | hi
          · exact hs4 h0 i hi he heq
          · rw [List.mem_singleton.mp hi] at he
            exact absurd he hnel
        · intro h0 i hi he heq hne
          rcases List.mem_append.mp hi with hi | hi
          · exact hs5 h0 i hi he heq hne
          · rw [List.mem_singleton.mp hi] at he
            exact absurd he hnel
  · have hel : lbEligible lb j := lt_of_not_le hcap
    cases sel with
    | none =>
        rw [selectStep_none lb j hcap]
        refine ⟨List.mem_append_right _ (List.mem_singleton_self j), hel, ?_, ?_, ?_⟩
        · intro i hi he
          rcases List.mem_append.mp hi with hi | hi
          · exact absurd he (h i hi)
          · rw [List.mem_singleton.mp hi]
        · intro _ i hi he heq
          rcases List.mem_append.mp hi with hi | hi
          · exact absurd he (h i hi)
          · rw [List.mem_singleton.mp hi] at heq ⊢
            simp_all
        · intro _ i hi he heq hne
          rcases List.mem_append.mp hi with hi | hi
          · exact absurd he (h i hi)
          · rw [List.mem_singleton.mp hi]
    | some s =>
        rw [selectStep_some lb j s hcap]
        obtain ⟨hs1, hs2, hs3, hs4, hs5⟩ := h
        by_cases hlt : lb.workerLoads j < lb.workerLoads s
        · rw [if_pos hlt]
          refine ⟨List.mem_append_right _ (List.mem_singleton_self j), hel, ?_, ?_, ?_⟩
          · intro i hi he
            rcases List.mem_append.mp hi with hi | hi
            · exact le_trans (le_of_lt hlt) (hs3 i hi he)
            · rw [List.mem_singleton.mp hi]
          · intro _ i hi he heq
            rcases List.mem_append.mp hi with hi | hi
            · exact absurd heq (by
                have := lt_of_lt_of_le hlt (hs3 i hi he)
                exact ne_of_gt this)
            · rw [List.mem_singleton.mp hi] at heq ⊢
              simp_all
          · intro _ i hi he heq hne
            rcases List.mem_append.mp hi with hi | hi
            · exact absurd heq (by
                have := lt_of_lt_of_le hlt (hs3 i hi he)
                exact ne_of_gt this)
            · rw [List.mem_singleton.mp hi]
        · rw [if_neg hlt]
          by_cases heq : lb.workerLoads j = lb.workerLoads s
          · rw [if_pos heq]
            by_cases hsw : lb.workerLatency s = 0 ∨
                (0 < lb.workerLatency j ∧ lb.workerLatency j < lb.workerLatency s)
            · rw [if_pos hsw]
              refine ⟨List.mem_append_right _ (List.mem_singleton_self j), hel, ?_, ?_, ?_⟩
              · intro i hi he
                rcases List.mem_append.mp hi with hi | hi
                · rw [heq]; exact hs3 i hi he
                · rw [List.mem_singleton.mp hi]
              · intro h0 i hi he heqi
                rcases List.mem_append.mp hi with hi | hi
                · rcases hsw with h0s | ⟨hj1, hj2⟩
                  · exact hs4 h0s i hi he (by rw [heqi, heq])
                  · omega
                · rw [List.mem_singleton.mp hi]
                  exact h0
              · intro h0 i hi he heqi hne
                rcases List.mem_append.mp hi with hi | hi
                · rcases hsw with h0s | ⟨hj1, hj2⟩
                  · exact absurd (hs4 h0s i hi he (by rw [heqi, heq])) hne
                  · exact le_trans (le_of_lt hj2)
                      (hs5 (by omega) i hi he (by rw [heqi, heq]) hne)
                · rw [List.mem_singleton.mp hi]
            · rw [if_neg hsw]
              push_neg at hsw
              refine ⟨List.mem_append_left _ hs1, hs2, ?_, ?_, ?_⟩
              · intro i hi he
                rcases List.mem_append.mp hi with hi | hi
                · exact hs3 i hi he
                · rw [List.mem_singleton.mp hi, heq]
              · intro h0 i hi he heqi
                exact absurd h0 hsw.1
              · intro h0 i hi he heqi hne
                rcases List.mem_append.mp hi with hi | hi
                · exact hs5 h0 i hi he heqi hne
                · rw [List.mem_singleton.mp hi] at hne heqi ⊢
                  have := hsw.2 (by omega)
                  omega
          · rw [if_neg heq]
            have hgt : lb.workerLoads s < lb.workerLoads j :=
              lt_of_le_of_ne (not_lt.mp hlt) (fun hc => heq hc.symm)
            refine ⟨List.mem_append_left _ hs1, hs2, ?_, ?_, ?_⟩
            · intro i hi he
              rcases List.mem_append.mp hi with hi | hi
              · exact hs3 i hi he
              · rw [List.mem_singleton.mp hi]
                exact le_of_lt hgt
            · intro h0 i hi he heqi
              rcases List.mem_append.mp hi with hi | hi
              · exact hs4 h0 i hi he heqi
              · rw [List.mem_singleton.mp hi] at heqi
                exact absurd heqi (ne_of_gt hgt)
            · intro h0 i hi he heqi hne
              rcases List.mem_append.mp hi with hi | hi
              · exact hs5 h0 i hi he heqi hne
              · rw [List.mem_singleton.mp hi] at heqi
                exact absurd heqi (ne_of_gt hgt)

lemma selInv_foldl (lb : LoadBalancer) :
    ∀ (todo done : List Nat) (sel : Option Nat), selInv lb done sel →
      selInv lb (done ++ todo) (todo.foldl (selectStep lb) sel) := by
  intro todo
  induction todo with
  | nil => intro done sel h; simpa using h
  | cons j rest ih =>
      intro done sel h
      have h' := selInv_step lb done sel j h
      have := ih (done ++ [j]) (selectStep lb sel j) h'
      simpa [List.append_assoc] using this

lemma selInv_selectWorker (lb : LoadBalancer) :
    selInv lb (List.range lb.activeWorkers) (SelectWorker lb) := by
  have h0 : selInv lb [] none := by
    intro i hi
    simp at hi
  simpa using selInv_foldl lb (List.range lb.activeWorkers) [] none h0

/-- C9 (amended): `SelectWorker` never returns a worker at or above capacity
and errs exactly when every active worker is at capacity; the returned
worker has minimum load among below-capacity workers; and on a load tie a
worker with non-zero recorded latency is preferred over one with zero
latency (if the result has zero latency, every tied worker does), with the
lowest non-zero latency winning among the non-zero ones. -/
theorem C9_select_worker_min_load (lb : LoadBalancer) :
    (∀ s, SelectWorker lb = some s →
      s < lb.activeWorkers ∧
      lb.workerLoads s < (lb.workerCapacity s : ℚ) ∧
      (∀ i, i < lb.activeWorkers → lb.workerLoads i < (lb.workerCapacity i : ℚ) →
        lb.workerLoads s ≤ lb.workerLoads i) ∧
      (lb.workerLatency s = 0 → ∀ i, i < lb.activeWorkers →
        lb.workerLoads i < (lb.workerCapacity i : ℚ) →
        lb.workerLoads i = lb.workerLoads s → lb.workerLatency i = 0) ∧
      (lb.workerLatency s ≠ 0 → ∀ i, i < lb.activeWorkers →
        lb.workerLoads i < (lb.workerCapacity i : ℚ) →
        lb.workerLoads i = lb.workerLoads s → lb.workerLatency i ≠ 0 →
        lb.workerLatency s ≤ lb.workerLatency i)) ∧
    (SelectWorker lb = none ↔
      ∀ i, i < lb.activeWorkers → (lb.workerCapacity i : ℚ) ≤ lb.workerLoads i) := by
  have hinv := selInv_selectWorker lb
  constructor
  · intro s hs
    rw [hs] at hinv
    obtain ⟨h1, h2, h3, h4, h5⟩ := hinv
    refine ⟨List.mem_range.mp h1, h2, ?_, ?_, ?_⟩
    · intro i hi he
      exact h3 i (List.mem_range.mpr hi) he
    · intro h0 i hi he heq
      exact h4 h0 i (List.mem_range.mpr hi) he heq
    · intro h0 i hi he heq hne
      exact h5 h0 i (List.mem_range.mpr hi) he heq hne
  · constructor
    · intro hn i hi
      rw [hn] at hinv
      exact not_lt.mp (hinv i (List.mem_range.mpr hi))
    · intro hall
      cases hsel : SelectWorker lb with
      | none => rfl
      | some s =>
          rw [hsel] at hinv
          exact absurd hinv.2.1 (not_lt.mpr (hall s (List.mem_range.mp hinv.1)))

/-- Two below-capacity workers with equal loads; worker 0 has zero recorded
latency, worker 1 latency 5. -/
def lbTie : LoadBalancer :=
  { workerLoads := fun _ => 0,
    workerLatency := fun i => if i = 0 then 0 else 5,
    workerCapacity := fun _ => 1,
    activeWorkers := 2 }

/-- C9 (counterexample): with tied loads, the fresh worker 0 (zero recorded
latency) loses to worker 1 (latency 5): the scan replaces a zero-latency
incumbent on any tie, so `SelectWorker` returns worker 1, not the claimed
zero-latency worker 0. -/
theorem C9_tie_break_counterexample :
    SelectWorker lbTie = some 1 ∧
    lbTie.workerLatency 0 = 0 ∧ lbTie.workerLatency 1 = 5 ∧
    lbTie.workerLoads 0 = lbTie.workerLoads 1 ∧
    lbTie.workerLoads 0 < (lbTie.workerCapacity 0 : ℚ) ∧
    lbTie.workerLoads 1 < (lbTie.workerCapacity 1 : ℚ) := by
  refine ⟨?_, rfl, rfl, rfl, ?_, ?_⟩
  · rfl
  · norm_num [lbTie]
  · norm_num [lbTie]

/-- The mirror image of `lbTie`: worker 0 has latency 5, worker 1 latency 0. -/
def lbTie2 : LoadBalancer :=
  { workerLoads := fun _ => 0,
    workerLatency := fun i => if i = 0 then 5 else 0,
    workerCapacity := fun _ => 1,
    activeWorkers := 2 }

/-- Witness for the amended C9: in `lbTie2` the non-zero-latency worker 0
wins the tie, is below capacity, and has minimal load. -/
theorem C9_select_worker_min_load_witness :
    SelectWorker lbTie2 = some 0 ∧
    lbTie2.workerLoads 0 < (lbTie2.workerCapacity 0 : ℚ) ∧
    lbTie2.workerLoads 0 ≤ lbTie2.workerLoads 1 := by
  have h := (C9_select_worker_min_load lbTie2).1 0 rfl
  exact ⟨rfl, h.2.1, h.2.2.1 1 (by norm_num [lbTie2]) (by norm_num [lbTie2])⟩

/-! ## Pool scheduler (`pool` source: `Q.Schedule`, `Q.manage`,
`Q.getCircuitBreaker`, the `WithCircuitBreaker` option) -/

structure CircuitBreakerConfig where
  MaxFailures : Nat
  ResetTimeout : Nat
  HalfOpenMax : Nat
deriving DecidableEq

/-- The fields of `Job` the scheduler reads (the callable itself is held but
never invoked by the scheduler, so it is not modelled here). -/
structure Job where
  ID : String
  CircuitID : String
  CircuitConfig : Option CircuitBreakerConfig
  TTL : Int
deriving DecidableEq

/-- `WithCircuitBreaker(id, maxFailures, resetTimeout)`: sets only
`CircuitID`; the `maxFailures` and `resetTimeout` parameters are ignored and
`CircuitConfig` is left untouched. -/
def WithCircuitBreaker (id : String) (_maxFailures _resetTimeout : Nat) (j : Job) : Job :=
  { j with CircuitID := id }

structure PoolMetrics where
  schedulingFailures : Nat
deriving DecidableEq

structure PoolState where
  breakers : List (String × CircuitBreaker)
  jobs : List Job
  jobsCap : Nat
  space : QSpaceState
  metrics : PoolMetrics

/-- `Q.getCircuitBreaker`: returns no breaker unless the job carries BOTH a
circuit id and a `CircuitConfig` — even if a breaker for that id exists in
the table; otherwise looks the id up, creating a closed breaker from the
job's config when absent.  Returns the breaker (if any) with the updated
table. -/
def getCircuitBreaker (q : PoolState) (job : Job) : Option CircuitBreaker × PoolState :=
  if job.CircuitID = "" ∨ job.CircuitConfig = none then (none, q)
  else
    match alookup job.CircuitID q.breakers with
    | some breaker => (some breaker, q)
    | none =>
        match job.CircuitConfig with
        | some cfg =>
            let breaker : CircuitBreaker :=
              { maxFailures := cfg.MaxFailures, resetTimeout := cfg.ResetTimeout,
                halfOpenMax := cfg.HalfOpenMax, failureCount := 0,
                state := .CircuitClosed, openTime := 0, halfOpenAttempts := 0 }
            (some breaker, { q with breakers := ainsert job.CircuitID breaker q.breakers })
        | none => (none, q)

/-- What `Q.Schedule` hands back: an already-resolved future carrying an
error, or a future awaiting the result store (the channel handle `Await`
returned). -/
inductive ScheduleResult where
  | resolvedError (msg : String)
  | awaitChan (handle : Nat)
deriving DecidableEq

/-- The enqueue-or-timeout tail of `Q.Schedule`: the send on the buffered
`jobs` channel succeeds when the buffer has room (then the future comes from
`QSpace.Await`); otherwise the scheduling-timeout branch resolves the future
with "job scheduling timeout" and increments `SchedulingFailures`. -/
def scheduleEnqueue (q : PoolState) (job : Job) : PoolState × ScheduleResult :=
  if q.jobs.length < q.jobsCap then
    let aw := QSpace.Await job.ID q.space
    ({ q with jobs := q.jobs ++ [job], space := aw.1 }, .awaitChan aw.2)
  else
    ({ q with metrics := { schedulingFailures := q.metrics.schedulingFailures + 1 } },
      .resolvedError "job scheduling timeout")

/-- `Q.Schedule` after the options have been applied: when the job names a
circuit, consult `getCircuitBreaker`; a non-nil breaker that denies yields an
already-resolved "circuit breaker ... is open" future before any enqueue
attempt; otherwise race the enqueue. -/
def Schedule (now : Nat) (q : PoolState) (job : Job) : PoolState × ScheduleResult :=
  if job.CircuitID ≠ "" then
    let gb := getCircuitBreaker q job
    match gb.1 with
    | some breaker =>
        let ab := Allow now breaker
        let q' := { gb.2 with breakers := ainsert job.CircuitID ab.1 gb.2.breakers }
        if ab.2 then scheduleEnqueue q' job
        else (q', .resolvedError ("circuit breaker " ++ job.CircuitID ++ " is open"))
    | none => scheduleEnqueue gb.2 job
  else scheduleEnqueue q job

/-- The single state stored by the scheduling-timeout arm of `Q.manage`. -/
def noWorkersState : StateP :=
  { Value := GoVal.errV "no available workers", Probability := 1 }

/-- The scheduling-timeout arm of `Q.manage`: no ready worker arrived within
the timeout, so store a value whose single state carries the error
`"no available workers"` (the `QValue`'s own `Value` and `Error` fields stay
nil) under the job id with the job's TTL.  The metrics are not touched on
this path. -/
def manageSchedulingTimeout (now : Nat) (q : PoolState) (job : Job) :
    Except String PoolState :=
  match QSpace.Store now job.ID GoVal.nilV [noWorkersState] job.TTL q.space with
  | .ok space' => .ok { q with space := space' }
  | .error e => .error e

lemma alookup_ainsert_self {β : Type} (k : String) (v : β) (l : List (String × β)) :
    alookup k (ainsert k v l) = some v := by
  simp [alookup, ainsert]

lemma alookup_aerase_self {β : Type} (k : String) (l : List (String × β)) :
    alookup k (aerase k l) = none := by
  induction l with
  | nil => rfl
  | cons p rest ih =>
      by_cases hk : p.1 = k
      · simpa [aerase, List.filter_cons, hk] using ih
      · have hk' : ¬ k = p.1 := fun hkk => hk hkk.symm
        simpa [aerase, List.filter_cons, hk, alookup, hk'] using ih

lemma arr_getD_singleton (x d : Nat) : (Array.mk [x]).getD 0 d = x := rfl

/-- C4 (amended): when `Q.manage` cannot hand a job to any ready worker
within the scheduling timeout, it stores under the job id a value whose
single state carries the error "no available workers" (the outcome's own
`Error` and `Value` fields are nil), which releases the submitter's
registered waiter (the waiter list is cleared and the outcome delivered to
its channel); `schedulingFailures` is NOT incremented on this path — that
counter only moves in the enqueue-timeout branch of `Q.Schedule`. -/
theorem C4_no_available_workers_amended
    (q : PoolState) (job : Job) (now : Nat) (h : Nat)
    (hv : alookup job.ID q.space.values = none)
    (hw : alookup job.ID q.space.waiting = some [h])
    (hch : q.space.chans h = { buf := [], cap := 1, closed := false }) :
    (manageSchedulingTimeout now q job).map
        (fun p => (p.metrics, alookup job.ID p.space.values,
          alookup job.ID p.space.waiting, (p.space.chans h).buf))
      = .ok (q.metrics,
          some ({ NewQValue now GoVal.nilV [noWorkersState] with TTL := job.TTL }),
          none,
          [{ NewQValue now GoVal.nilV [noWorkersState] with TTL := job.TTL }]) := by
  unfold manageSchedulingTimeout QSpace.Store QSpace.storeCore
  simp [hv, hw, hch, notifyGo, arr_getD_singleton, Except.map,
    alookup_ainsert_self, alookup_aerase_self, Function.update_same]

/-- Store state with one registered waiter (handle 0) for job id "j". -/
def spaceW4 : QSpaceState :=
  { values := [], waiting := [("j", [0])], stateHistory := [],
    chans := fun _ => ({ buf := [], cap := 1, closed := false } : Chan), nextChan := 1 }

/-- Pool state with one registered waiter (handle 0) for job id "j". -/
def qW4 : PoolState :=
  { breakers := [], jobs := [], jobsCap := 10, space := spaceW4,
    metrics := { schedulingFailures := 0 } }

/-- A job with no circuit and no TTL. -/
def jobPlain : Job := { ID := "j", CircuitID := "", CircuitConfig := none, TTL := 0 }

/-- Witness for the amended C4 at the concrete one-waiter pool state. -/
theorem C4_no_available_workers_amended_witness :
    (manageSchedulingTimeout 5 qW4 jobPlain).map
        (fun p => (p.metrics, alookup "j" p.space.values,
          alookup "j" p.space.waiting, (p.space.chans 0).buf))
      = .ok (qW4.metrics,
          some ({ NewQValue 5 GoVal.nilV [noWorkersState] with TTL := 0 }),
          none,
          [{ NewQValue 5 GoVal.nilV [noWorkersState] with TTL := 0 }]) :=
  C4_no_available_workers_amended qW4 jobPlain 5 0 rfl rfl rfl

/-- Pool state with no waiters and `schedulingFailures = 0`. -/
def q0pool : PoolState :=
  { breakers := [], jobs := [], jobsCap := 10, space := emptyQSpace,
    metrics := { schedulingFailures := 0 } }

/-- C4 (counterexample): the `manage` scheduling-timeout handler stores the
"no available workers" outcome but leaves `schedulingFailures` at 0 — the
claim says the counter is incremented on this path. -/
theorem C4_scheduling_failures_counterexample :
    (manageSchedulingTimeout 5 q0pool jobPlain).map
        (fun p => p.metrics.schedulingFailures) = .ok 0 ∧
    (manageSchedulingTimeout 5 q0pool jobPlain).map
        (fun p => alookup "j" p.space.values)
      = .ok (some ({ NewQValue 5 GoVal.nilV [noWorkersState] with TTL := 0 })) :=
  ⟨rfl, rfl⟩

/-- C5 (amended): when the scheduled job names a circuit breaker AND carries
a `CircuitConfig`, and the breaker exists in the table and denies admission,
`Schedule` returns an already-resolved "circuit breaker ... is open" future
before any enqueue attempt: the jobs queue and the result store are left
untouched (no queue capacity consumed, no waiter registered, and the
callable — which only workers ever invoke, from the queue — never runs). -/
theorem C5_circuit_open_schedule (q : PoolState) (job : Job) (now : Nat)
    (cfg : CircuitBreakerConfig) (breaker : CircuitBreaker)
    (hid : job.CircuitID ≠ "")
    (hcfg : job.CircuitConfig = some cfg)
    (hb : alookup job.CircuitID q.breakers = some breaker)
    (hdeny : (Allow now breaker).2 = false) :
    (Schedule now q job).2 =
      .resolvedError ("circuit breaker " ++ job.CircuitID ++ " is open") ∧
    (Schedule now q job).1.jobs = q.jobs ∧
    (Schedule now q job).1.space = q.space := by
  have hgb : getCircuitBreaker q job = (some breaker, q) := by
    unfold getCircuitBreaker
    rw [if_neg (by simp [hid, hcfg]), hb]
  unfold Schedule
  rw [if_pos hid]
  simp [hgb, hdeny]

/-- A circuit breaker for id "c" that is OPEN (opened at time 0, reset
timeout 100) and therefore denies at time 5. -/
def cbOpenC : CircuitBreaker :=
  { maxFailures := 2, resetTimeout := 100, halfOpenMax := 1, failureCount := 2,
    state := .CircuitOpen, openTime := 0, halfOpenAttempts := 0 }

/-- Pool whose breaker table holds the open breaker "c". -/
def qC5 : PoolState :=
  { breakers := [("c", cbOpenC)], jobs := [], jobsCap := 10, space := emptyQSpace,
    metrics := { schedulingFailures := 0 } }

/-- A job naming circuit "c" through the public `WithCircuitBreaker` option,
which never sets `CircuitConfig`. -/
def jC5 : Job :=
  WithCircuitBreaker "c" 2 100 { ID := "j", CircuitID := "", CircuitConfig := none, TTL := 0 }

/-- C5 (counterexample): the named breaker "c" exists and denies
(`Allow = false`), yet — because `WithCircuitBreaker` leaves `CircuitConfig`
nil and `getCircuitBreaker` then returns no breaker — `Schedule` bypasses
the circuit check, enqueues the job (consuming queue capacity) and returns
an awaiting future instead of the claimed resolved "circuit open" error. -/
theorem C5_circuit_bypass_counterexample :
    (alookup "c" qC5.breakers).map (fun cb => (Allow 5 cb).2) = some false ∧
    jC5.CircuitID = "c" ∧
    (Schedule 5 qC5 jC5).2 = ScheduleResult.awaitChan 0 ∧
    (Schedule 5 qC5 jC5).1.jobs = [jC5] :=
  ⟨rfl, rfl, rfl, rfl⟩

/-- The same job but carrying an explicit `CircuitConfig`. -/
def jW5 : Job :=
  { ID := "j", CircuitID := "c",
    CircuitConfig := some { MaxFailures := 2, ResetTimeout := 100, HalfOpenMax := 1 },
    TTL := 0 }

/-- Witness for the amended C5: with the config present, the open breaker
makes `Schedule` resolve synchronously and leave the queue untouched. -/
theorem C5_circuit_open_schedule_witness :
    (Schedule 5 qC5 jW5).2 = .resolvedError "circuit breaker c is open" ∧
    (Schedule 5 qC5 jW5).1.jobs = qC5.jobs := by
  have h := C5_circuit_open_schedule qC5 jW5 5
    { MaxFailures := 2, ResetTimeout := 100, HalfOpenMax := 1 } cbOpenC
    (by decide) rfl rfl rfl
  exact ⟨h.1, h.2.1⟩

/-! ## Rate limiter (`ratelimiter.go`) -/

structure RateLimiter where
  tokens : Nat
  maxTokens : Nat
  refillRate : Nat
  lastRefill : Int
deriving DecidableEq

/-- `NewRateLimiter`: full bucket, `lastRefill` set one full period into the
past. -/
def NewRateLimiter (maxTokens refillRate : Nat) (now : Int) : RateLimiter :=
  { tokens := maxTokens, maxTokens := maxTokens, refillRate := refillRate,
    lastRefill := now - refillRate }

/-- `RateLimiter.refill`: compute
`tokensToAdd = (elapsedNs + refillRateNs/2) / refillRateNs` with Go's
truncating integer division (`Int.tdiv`); when positive, add that many
tokens capped at `maxTokens` and advance `lastRefill` by exactly that many
whole periods. -/
def refill (now : Int) (rl : RateLimiter) : RateLimiter :=
  let elapsedNs : Int := now - rl.lastRefill
  let refillRateNs : Int := (rl.refillRate : Int)
  let tokensToAdd : Int := Int.tdiv (elapsedNs + Int.tdiv refillRateNs 2) refillRateNs
  if 0 < tokensToAdd then
    { rl with
      tokens := min rl.maxTokens (rl.tokens + tokensToAdd.toNat),
      lastRefill := rl.lastRefill + tokensToAdd * refillRateNs }
  else rl

/-- `RateLimiter.Limit`: refill, then consume a token when one is available;
the Bool is `true` when the operation must be limited. -/
def Limit (now : Int) (rl : RateLimiter) : RateLimiter × Bool :=
  let rl := refill now rl
  if 0 < rl.tokens then ({ rl with tokens := rl.tokens - 1 }, false)
  else (rl, true)

/-- `RateLimiter.Renormalize`: a bare refill (named apart from the circuit
breaker's `Renormalize`). -/
def RLRenormalize (now : Int) (rl : RateLimiter) : RateLimiter :=
  refill now rl

/-- 1 for a `Limit` call that admitted the operation (returned `false`). -/
def cnt (limited : Bool) : Nat := if limited then 0 else 1

/-- Behaviour of one `refill` under the running invariant
`lastRefill ≤ now + ⌊r/2⌋`: parameters preserved, `lastRefill`
non-decreasing and afterwards within `(now - (r - ⌊r/2⌋), now + ⌊r/2⌋]`,
tokens bounded by `max maxTokens tokens`, and the token gain accounted
against the advance of `lastRefill`. -/
lemma refill_spec (r : Nat) (hr : 1 ≤ r) (rl : RateLimiter) (now : Int)
    (hrr : rl.refillRate = r) (hlb : rl.lastRefill ≤ now + Int.tdiv r 2) :
    (refill now rl).refillRate = r ∧
    (refill now rl).maxTokens = rl.maxTokens ∧
    rl.lastRefill ≤ (refill now rl).lastRefill ∧
    ((refill now rl).tokens : Int) * r ≤ (rl.tokens : Int) * r +
      ((refill now rl).lastRefill - rl.lastRefill) ∧
    (refill now rl).tokens ≤ max rl.maxTokens rl.tokens ∧
    now - ((r : Int) - Int.tdiv r 2) < (refill now rl).lastRefill ∧
    (refill now rl).lastRefill ≤ now + Int.tdiv r 2 := by
  have hr0 : (0 : Int) < (r : Int) := by exact_mod_cast hr
  simp only [refill, hrr]
  set d : Int := Int.tdiv (r : Int) 2 with hdd
  have hd0 : (0 : Int) ≤ d := by
    rw [hdd, Int.tdiv_eq_ediv (by positivity) (by norm_num)]
    positivity
  have hdr : d < r := by
    rw [hdd, Int.tdiv_eq_ediv (by positivity) (by norm_num)]
    omega
  set num : Int := now - rl.lastRefill + d with hnum_def
  have hnum0 : 0 ≤ num := by omega
  have htd : Int.tdiv num (r : Int) = num / r := Int.tdiv_eq_ediv hnum0 (le_of_lt hr0)
  rw [htd]
  set add : Int := num / r with hadd_def
  have hadd0 : 0 ≤ add := Int.ediv_nonneg hnum0 (le_of_lt hr0)
  have hmod := Int.ediv_add_emod num r
  have hmod0 : 0 ≤ num % r := Int.emod_nonneg num (by omega)
  have hmodr : num % r < r := Int.emod_lt_of_pos num hr0
  have hac : add * (r : Int) = (r : Int) * add := mul_comm _ _
  by_cases hpos : 0 < add
  · rw [if_pos hpos]
    have htn : ((rl.tokens + add.toNat : Nat) : Int) = rl.tokens + add := by
      push_cast
      rw [Int.toNat_of_nonneg hadd0]
    have hmin : ((min rl.maxTokens (rl.tokens + add.toNat) : Nat) : Int) ≤
        (rl.tokens : Int) + add := by
      rw [← htn]
      exact_mod_cast Nat.min_le_right _ _
    have key := mul_le_mul_of_nonneg_right hmin (le_of_lt hr0)
    have exp : ((rl.tokens : Int) + add) * r = (rl.tokens : Int) * r + add * r := by ring
    have haddr0 : 0 ≤ add * (r : Int) := mul_nonneg hadd0 (le_of_lt hr0)
    refine ⟨rfl, rfl, by simp only; linarith, by simp only; linarith [key, exp], ?_, ?_, ?_⟩
    · simp only
      exact le_trans (Nat.min_le_left _ _) (le_max_left _ _)
    · simp only
      linarith [hac, hmod, hmodr]
    · simp only
      linarith [hac, hmod, hmod0]
  · rw [if_neg hpos]
    have hadd_eq : add = 0 := by omega
    have hnumr : num < r := by
      by_contra hc
      push_neg at hc
      have hone : (1 : Int) ≤ add := by
        rw [hadd_def]
        calc (1 : Int) = (r : Int) / r := by
              rw [Int.ediv_self (by omega)]
          _ ≤ num / r := Int.ediv_le_ediv hr0 hc
      omega
    exact ⟨hrr, rfl, le_refl _, by omega, le_max_right _ _, by omega, hlb⟩

/-- One `Limit` call under the running invariant: like `refill_spec`, with
the admitted-operation count and the remaining tokens accounted together. -/
lemma limit_step (r : Nat) (hr : 1 ≤ r) (rl : RateLimiter) (now : Int)
    (hrr : rl.refillRate = r) (hlb : rl.lastRefill ≤ now + Int.tdiv r 2) :
    (Limit now rl).1.refillRate = r ∧
    (Limit now rl).1.maxTokens = rl.maxTokens ∧
    rl.lastRefill ≤ (Limit now rl).1.lastRefill ∧
    ((cnt (Limit now rl).2 : Int)) * r + ((Limit now rl).1.tokens : Int) * r ≤
      (rl.tokens : Int) * r + ((Limit now rl).1.lastRefill - rl.lastRefill) ∧
    cnt (Limit now rl).2 + (Limit now rl).1.tokens ≤ max rl.maxTokens rl.tokens ∧
    now - ((r : Int) - Int.tdiv r 2) < (Limit now rl).1.lastRefill ∧
    (Limit now rl).1.lastRefill ≤ now + Int.tdiv r 2 := by
  obtain ⟨h1, h2, h3, h4, h5, h6, h7⟩ := refill_spec r hr rl now hrr hlb
  by_cases hpos : 0 < (refill now rl).tokens
  · have hL : Limit now rl =
        ({ refill now rl with tokens := (refill now rl).tokens - 1 }, false) := by
      unfold Limit
      simp only [if_pos hpos]
    rw [hL]
    simp only [cnt, Bool.false_eq_true, if_false]
    have hcast : (((refill now rl).tokens - 1 : Nat) : Int) =
        ((refill now rl).tokens : Int) - 1 := by
      have h1t : 1 ≤ (refill now rl).tokens := hpos
      push_cast [h1t]
      ring
    refine ⟨h1, h2, h3, ?_, ?_, h6, h7⟩
    · rw [hcast]
      push_cast
      linarith [h4]
    · have hsum : 1 + ((refill now rl).tokens - 1) = (refill now rl).tokens := by
        omega
      rw [hsum]
      exact h5
  · have hL : Limit now rl = (refill now rl, true) := by
      unfold Limit
      simp only [if_neg hpos]
    rw [hL]
    simp only [cnt, if_true]
    refine ⟨h1, h2, h3, by simpa using h4, by simpa using h5, h6, h7⟩

/-- A sequence of `Limit` calls; returns the final state and the number of
admitted (non-limited) operations. -/
def limitRun (rl : RateLimiter) : List Int → RateLimiter × Nat
  | [] => (rl, 0)
  | t :: ts =>
      let p := Limit t rl
      let rest := limitRun p.1 ts
      (rest.1, rest.2 + cnt p.2)

/-- The time of the last call, `t` when the list is empty. -/
def lastTime (t : Int) : List Int → Int
  | [] => t
  | x :: xs => lastTime x xs

lemma lastTime_le (b : Int) : ∀ (ts : List Int) (t : Int), t ≤ b → (∀ x ∈ ts, x ≤ b) →
    lastTime t ts ≤ b := by
  intro ts
  induction ts with
  | nil => intro t ht _; exact ht
  | cons x xs ih =>
      intro t _ hall
      exact ih x (hall x (List.mem_cons_self x xs)) (fun y hy => hall y (List.mem_cons_of_mem x hy))

/-- Accounting over a monotone run of `Limit` calls starting no earlier than
`t`: the admitted count plus the remaining tokens is bounded by the starting
tokens plus the whole periods `lastRefill` advanced, and the final
`lastRefill` respects the invariant at the last call time. -/
lemma limitRun_spec (r : Nat) (hr : 1 ≤ r) :
    ∀ (ts : List Int) (rl : RateLimiter) (t : Int),
      rl.refillRate = r → rl.lastRefill ≤ t + Int.tdiv r 2 →
      List.Chain (· ≤ ·) t ts →
      (limitRun rl ts).1.refillRate = r ∧
      rl.lastRefill ≤ (limitRun rl ts).1.lastRefill ∧
      ((limitRun rl ts).2 : Int) * r + ((limitRun rl ts).1.tokens : Int) * r ≤
        (rl.tokens : Int) * r + ((limitRun rl ts).1.lastRefill - rl.lastRefill) ∧
      (limitRun rl ts).1.lastRefill ≤ lastTime t ts + Int.tdiv r 2 := by
  intro ts
  induction ts with
  | nil =>
      intro rl t hrr hlb _
      exact ⟨hrr, le_refl _, by simp [limitRun], by simpa [limitRun, lastTime] using hlb⟩
  | cons t' ts ih =>
      intro rl t hrr hlb hchain
      rw [List.chain_cons] at hchain
      have hlb' : rl.lastRefill ≤ t' + Int.tdiv r 2 := by
        have := hchain.1
        omega
      obtain ⟨s1, s2, s3, s4, s5, s6, s7⟩ := limit_step r hr rl t' hrr hlb'
      obtain ⟨i1, i2, i3, i4⟩ := ih (Limit t' rl).1 t' s1 s7 hchain.2
      have hrun : limitRun rl (t' :: ts) =
          ((limitRun (Limit t' rl).1 ts).1,
            (limitRun (Limit t' rl).1 ts).2 + cnt (Limit t' rl).2) := rfl
      rw [hrun]
      refine ⟨i1, le_trans s3 i2, ?_, ?_⟩
      · simp only
        push_cast
        have hdist : (((limitRun (Limit t' rl).1 ts).2 : Int) + (cnt (Limit t' rl).2 : Int)) * r
            = ((limitRun (Limit t' rl).1 ts).2 : Int) * r +
              (cnt (Limit t' rl).2 : Int) * r := by
          ring
        linarith [hdist, i3, s4]
      · simpa [lastTime] using i4

/-- Limiter states reachable from `NewRateLimiter` through `Limit` /
`Renormalize` calls at non-decreasing wall-clock times; the `Int` component
is the time of the last interaction. -/
inductive RLReach (M r : Nat) : RateLimiter → Int → Prop where
  | new (t0 : Int) : RLReach M r (NewRateLimiter M r t0) t0
  | limit {rl : RateLimiter} {t : Int} (t' : Int) :
      RLReach M r rl t → t ≤ t' → RLReach M r (Limit t' rl).1 t'
  | renorm {rl : RateLimiter} {t : Int} (t' : Int) :
      RLReach M r rl t → t ≤ t' → RLReach M r (RLRenormalize t' rl) t'

lemma tdiv_half_nonneg (r : Nat) : (0 : Int) ≤ Int.tdiv r 2 := by
  rw [Int.tdiv_eq_ediv (by positivity) (by norm_num)]
  positivity

/-- Every reachable limiter keeps its parameters, holds at most `maxTokens`
tokens, and satisfies `lastRefill ≤ t + ⌊r/2⌋` at its last interaction
time `t`. -/
lemma RLReach_inv (M r : Nat) (hr : 1 ≤ r) :
    ∀ (rl : RateLimiter) (t : Int), RLReach M r rl t →
      rl.refillRate = r ∧ rl.maxTokens = M ∧ rl.tokens ≤ M ∧
        rl.lastRefill ≤ t + Int.tdiv r 2 := by
  intro rl t hreach
  induction hreach with
  | new t0 =>
      refine ⟨rfl, rfl, le_refl _, ?_⟩
      have hd0 := tdiv_half_nonneg r
      have : (0 : Int) ≤ (r : Int) := by positivity
      simp only [NewRateLimiter]
      linarith
  | limit t' hprev hle ih =>
      obtain ⟨v1, v2, v3, v4⟩ := ih
      rename_i rl0 t
      have hlb : rl0.lastRefill ≤ t' + Int.tdiv r 2 := by linarith
      obtain ⟨s1, s2, s3, s4, s5, s6, s7⟩ := limit_step r hr rl0 t' v1 hlb
      refine ⟨s1, by rw [s2, v2], ?_, s7⟩
      have hmax : max rl0.maxTokens rl0.tokens = M := by
        rw [v2]
        exact max_eq_left v3
      have := s5
      omega
  | renorm t' hprev hle ih =>
      obtain ⟨v1, v2, v3, v4⟩ := ih
      rename_i rl0 t
      have hlb : rl0.lastRefill ≤ t' + Int.tdiv r 2 := by linarith
      obtain ⟨s1, s2, s3, s4, s5, s6, s7⟩ := refill_spec r hr rl0 t' v1 hlb
      simp only [RLRenormalize]
      refine ⟨s1, by rw [s2, v2], ?_, s7⟩
      have hmax : max rl0.maxTokens rl0.tokens = M := by
        rw [v2]
        exact max_eq_left v3
      have := s5
      omega

/-- For `r ≥ 1`, `⌈dt/r⌉ · r ≥ dt`. -/
lemma ceil_mul_ge (dtN r : Nat) (hr : 1 ≤ r) : dtN ≤ r * ((dtN + r - 1) / r) := by
  have hdm := Nat.div_add_mod (dtN + r - 1) r
  have hmlt : (dtN + r - 1) % r < r := Nat.mod_lt _ (by omega)
  omega

lemma ceil_bound_contra (M r dtN k c1 : Nat) (hr : 1 ≤ r)
    (hint : (k + c1) * r + 1 ≤ M * r + dtN + r)
    (hcon : M + (dtN + r - 1) / r < k + c1) : False := by
  set ceil := (dtN + r - 1) / r with hceil
  have h1 : dtN ≤ r * ceil := ceil_mul_ge dtN r hr
  have hstep : M + ceil + 1 ≤ k + c1 := by omega
  have h2 : (M + ceil + 1) * r ≤ (k + c1) * r := Nat.mul_le_mul_right r hstep
  have h3 : (M + ceil + 1) * r = M * r + r * ceil + r := by ring
  linarith

/-- C8: (a) under the running invariant, `refill` adds exactly
`⌊(elapsedNanos + refillRateNanos/2) / refillRateNanos⌋` tokens capping the
count at `maxTokens`, and advances `lastRefill` by exactly that many whole
periods; (b) over any monotone sequence of `Limit` calls on a reachable
limiter, all within a window of width `dt` ns, the number of calls returning
`false` (admitted operations) is at most `⌈dt / refillRate⌉ + maxTokens`. -/
theorem C8_rate_limiter_refill_and_rate_bound
    (M r : Nat) (t0 t1 now' : Int) (dt : Nat)
    (rl0 rl' : RateLimiter) (ts : List Int)
    (hr : 1 ≤ r)
    (hreach : RLReach M r rl0 t0) (ht01 : t0 ≤ t1)
    (hchain : List.Chain (fun a b => a ≤ b) t1 ts)
    (hwin : ∀ x ∈ ts, x ≤ t1 + dt)
    (hrr' : rl'.refillRate = r) (htok' : rl'.tokens ≤ rl'.maxTokens)
    (hlb' : rl'.lastRefill ≤ now' + (r : Int) / 2) :
    ((refill now' rl').tokens =
        min rl'.maxTokens
          (rl'.tokens + ((now' - rl'.lastRefill + (r : Int) / 2) / (r : Int)).toNat) ∧
      (refill now' rl').lastRefill =
        rl'.lastRefill + ((now' - rl'.lastRefill + (r : Int) / 2) / (r : Int)) * (r : Int)) ∧
    (limitRun rl0 (t1 :: ts)).2 ≤ M + (dt + r - 1) / r := by
  have hr0 : (0 : Int) < (r : Int) := by exact_mod_cast hr
  have hdd : Int.tdiv (r : Int) 2 = (r : Int) / 2 :=
    Int.tdiv_eq_ediv (by positivity) (by norm_num)
  constructor
  · -- (a) the refill formula
    simp only [refill, hrr', hdd]
    set num : Int := now' - rl'.lastRefill + (r : Int) / 2 with hnum_def
    have hnum0 : 0 ≤ num := by
      have := Int.ediv_nonneg (show (0:Int) ≤ (r:Int) by positivity) (by norm_num : (0:Int) ≤ 2)
      omega
    have htd : Int.tdiv num (r : Int) = num / r := Int.tdiv_eq_ediv hnum0 (le_of_lt hr0)
    rw [htd]
    set add : Int := num / r with hadd_def
    have hadd0 : 0 ≤ add := Int.ediv_nonneg hnum0 (le_of_lt hr0)
    by_cases hpos : 0 < add
    · rw [if_pos hpos]
      exact ⟨rfl, rfl⟩
    · rw [if_neg hpos]
      have hadd_eq : add = 0 := by omega
      rw [hadd_eq]
      constructor
      · simp [min_eq_right htok']
      · ring
  · -- (b) the counting bound
    obtain ⟨v1, v2, v3, v4⟩ := RLReach_inv M r hr rl0 t0 hreach
    have hlb1 : rl0.lastRefill ≤ t1 + Int.tdiv r 2 := by linarith
    obtain ⟨s1, s2, s3, s4, s5, s6, s7⟩ := limit_step r hr rl0 t1 v1 hlb1
    obtain ⟨i1, i2, i3, i4⟩ := limitRun_spec r hr ts (Limit t1 rl0).1 t1 s1 s7 hchain
    have hrun : limitRun rl0 (t1 :: ts) =
        ((limitRun (Limit t1 rl0).1 ts).1,
          (limitRun (Limit t1 rl0).1 ts).2 + cnt (Limit t1 rl0).2) := rfl
    rw [hrun]
    simp only
    set p1 := (Limit t1 rl0).1 with hp1
    set c1 : Nat := cnt (Limit t1 rl0).2 with hc1
    set k : Nat := (limitRun p1 ts).2 with hk
    set Lend : Int := (limitRun p1 ts).1.lastRefill with hLend
    -- first call: count plus remaining tokens fits in the bucket
    have hM : c1 + p1.tokens ≤ M := by
      have hmax : max rl0.maxTokens rl0.tokens = M := by
        rw [v2]
        exact max_eq_left v3
      omega
    -- window bound on the last call time
    have hlast : lastTime t1 ts ≤ t1 + dt := by
      refine lastTime_le (t1 + dt) ts t1 (by omega) hwin
    have hd0 := tdiv_half_nonneg r
    have hdr : Int.tdiv r 2 < r := by
      rw [hdd]
      omega
    -- assemble the integer bound
    have hMk : ((c1 : Int) + p1.tokens) * r ≤ (M : Int) * r := by
      have : ((c1 + p1.tokens : Nat) : Int) ≤ (M : Int) := by exact_mod_cast hM
      have h2 := mul_le_mul_of_nonneg_right this (le_of_lt hr0)
      push_cast at h2 ⊢
      linarith
    have hIk : (k : Int) * r + ((limitRun p1 ts).1.tokens : Int) * r ≤
        (p1.tokens : Int) * r + (Lend - p1.lastRefill) := i3
    have hLendBound : Lend ≤ t1 + dt + Int.tdiv r 2 := by
      linarith [i4, hlast]
    have hL1 : t1 - ((r : Int) - Int.tdiv r 2) < p1.lastRefill := s6
    have htokEnd : (0 : Int) ≤ ((limitRun p1 ts).1.tokens : Int) * r := by positivity
    have hint : ((k : Int) + c1) * r + 1 ≤ (M : Int) * r + dt + r := by
      have hexpand : ((k : Int) + c1) * r = (k : Int) * r + (c1 : Int) * r := by ring
      have hexpand2 : ((c1 : Int) + p1.tokens) * r
          = (c1 : Int) * r + (p1.tokens : Int) * r := by ring
      linarith
    -- convert to the Nat ceiling bound
    by_contra hcon
    push_neg at hcon
    have hintN : (k + c1) * r + 1 ≤ M * r + dt + r := by exact_mod_cast hint
    exact ceil_bound_contra M r dt k c1 hr hintN hcon

/-- Witness for C8 at `maxTokens = 1`, `refillRate = 2`: the refill formula
on a fresh limiter, and a single `Limit` call at time 0 admitting at most
`1 + ⌈0/2⌉` operations. -/
theorem C8_rate_limiter_refill_and_rate_bound_witness :
    (refill 0 (NewRateLimiter 1 2 0)).tokens =
      min (NewRateLimiter 1 2 0).maxTokens
        ((NewRateLimiter 1 2 0).tokens +
          ((0 - (NewRateLimiter 1 2 0).lastRefill + (2 : Int) / 2) / (2 : Int)).toNat) ∧
    (limitRun (NewRateLimiter 1 2 0) [0]).2 ≤ 1 + (0 + 2 - 1) / 2 := by
  have h := C8_rate_limiter_refill_and_rate_bound 1 2 0 0 0 0
    (NewRateLimiter 1 2 0) (NewRateLimiter 1 2 0) [] (by decide)
    (RLReach.new 0) (by decide) List.Chain.nil (by simp) rfl (by decide) (by decide)
  exact ⟨h.1.1, h.2⟩
